import Mathlib

/-!
Verification development for the tabular-data utilities in
`notebooks/dba_utils.py` (functions `fix_column_names`,
`recode_to_categorical`, `better_describe`, `informative_columns`,
`drop_no_information_columns`).

A pandas `DataFrame` is modelled as a `Table`: an ordered list of named
columns, each column an ordered list of cells where `none` models a missing
value (`NaN`).  Python exceptions are modelled by the `PyErr` type and
fallible functions return `Except PyErr _`.
-/

/-- Python exceptions raised (directly or by pandas) in `dba_utils.py`. -/
inductive PyErr where
  | typeError (msg : String)
  | attributeError (msg : String)
  | keyError (msg : String)
  | valueError (msg : String)
deriving DecidableEq

/-- A pandas `DataFrame`: ordered named columns over cells of type `α`;
`none` models a missing value (`NaN`). -/
structure Table (α : Type) where
  cols : List (String × List (Option α))
deriving DecidableEq

/-- `Series.nunique()` / the per-column entries of `DataFrame.nunique()`:
the number of distinct non-missing values (pandas default `dropna=True`
ignores `NaN` cells). -/
def nunique {α : Type} [DecidableEq α] (col : List (Option α)) : Nat :=
  (col.filterMap id).dedup.length

/-- `informative_columns(df)` (dba_utils.py lines 100-103): the names of the
columns with zero, exactly one, and more than one distinct value.  A boolean
mask `df.columns[df.nunique() == k]` keeps the original column order, hence
the `List.filter`. -/
def informative_columns {α : Type} [DecidableEq α] (df : Table α) :
    List String × List String × List String :=
  (((df.cols.filter fun p => decide (nunique p.2 = 0)).map Prod.fst),
   ((df.cols.filter fun p => decide (nunique p.2 = 1)).map Prod.fst),
   ((df.cols.filter fun p => decide (1 < nunique p.2)).map Prod.fst))

/-- `df.drop(columns=labels)`: raises `KeyError` when a label is absent
(pandas default `errors="raise"`), otherwise returns a new frame without the
labelled columns, remaining columns in original order. -/
def pdDrop {α : Type} (df : Table α) (labels : List String) :
    Except PyErr (Table α) :=
  if labels.all (fun l => decide (l ∈ df.cols.map Prod.fst)) then
    .ok ⟨df.cols.filter fun p => !(decide (p.1 ∈ labels))⟩
  else
    .error (.keyError "not found in axis")

/-- `drop_no_information_columns(df, keep, drop)` (dba_utils.py lines
106-126).  `keep` and `drop` are modelled as `none` (Python `None`) or
`some` a list of names; Python truthiness makes the empty list skip its
branch.  The `keep` branch evaluates `delete - set(keep)` where `delete` is
a Python *list*, which raises
`TypeError: unsupported operand type(s) for -: 'list' and 'set'`; the model
returns that error.  The `print` of the dropped names is an observability
side effect with no influence on the result and is not modelled. -/
def drop_no_information_columns {α : Type} [DecidableEq α] (df : Table α)
    (keep drop : Option (List String)) : Except PyErr (Table α) :=
  let n_a := informative_columns df
  let delete := n_a.1 ++ n_a.2.1
  let delete := match drop with
    | some d => if d.isEmpty then delete else delete ++ d
    | none => delete
  match keep with
  | some k =>
      if k.isEmpty then pdDrop df delete
      else .error (.typeError "unsupported operand type(s) for -: list and set")
  | none => pdDrop df delete

/-- Concrete table with one all-missing, one constant and one varying
column. -/
def exDf : Table ℤ :=
  ⟨[("a", [none, none]), ("b", [some 1, some 1]), ("c", [some 1, some 2])]⟩

/-!
## Column-name normalization (`fix_column_names`, dba_utils.py lines 5-32)

A Python string is modelled as its list of Unicode code points.  The string
operations used by `fix_column_names` are modelled code-point-wise:
`str.strip` with the full CPython whitespace set, `str.lower` on the code
points this data can contain (ASCII letters and the German letters of the
default character map; other code points are left unchanged), `str.replace`
for a single-character pattern, and the regex removal of every character
outside `[a-zA-Z0-9_]` as a filter.
-/

/-- A Python string as its list of Unicode code points. -/
abbrev PyStr := List Nat

/-- Code point of a character, to write `PyStr` literals readably. -/
def chr (c : Char) : Nat := c.toNat

/-- Code points of a string literal. -/
def str (s : String) : PyStr := s.data.map Char.toNat

/-- CPython `str.isspace` / the characters removed by `str.strip()`. -/
def pyIsSpace (c : Nat) : Bool :=
  decide (c ∈ ([9, 10, 11, 12, 13, 28, 29, 30, 31, 32, 133, 160, 5760,
    8192, 8193, 8194, 8195, 8196, 8197, 8198, 8199, 8200, 8201, 8202,
    8232, 8233, 8239, 8287, 12288] : List Nat))

/-- `str.strip()`: remove leading and trailing whitespace. -/
def pyStrip (s : PyStr) : PyStr :=
  ((s.dropWhile pyIsSpace).reverse.dropWhile pyIsSpace).reverse

/-- `str.lower()`, modelled on the code points relevant here: ASCII
uppercase letters are shifted to lowercase and the German uppercase letters
Ä/Ö/Ü are mapped to ä/ö/ü; every other code point is left unchanged. -/
def pyLower (c : Nat) : Nat :=
  if 65 ≤ c ∧ c ≤ 90 then c + 32
  else if c = 196 then 228      -- Ä → ä
  else if c = 214 then 246      -- Ö → ö
  else if c = 220 then 252      -- Ü → ü
  else c

/-- `str.replace(k, r)` for a single-character pattern `k`: every
occurrence of `k` is replaced by the string `r`. -/
def pyReplace (k : Nat) (r : PyStr) (s : PyStr) : PyStr :=
  (s.map fun c => if c = k then r else [c]).flatten

/-- The character class kept by `re.sub(r"[^a-zA-Z0-9_]", "", ...)`. -/
def isWordChar (c : Nat) : Bool :=
  decide ((97 ≤ c ∧ c ≤ 122) ∨ (65 ≤ c ∧ c ≤ 90) ∨ (48 ≤ c ∧ c ≤ 57) ∨ c = 95)

/-- The default `character_map` of `fix_column_names` (line 5), in dict
insertion order: space → underscore, ä → ae, ö → oe, ü → ue, ß → ss. -/
def character_map_default : List (Nat × PyStr) :=
  [(chr ' ', str "_"), (chr 'ä', str "ae"), (chr 'ö', str "oe"),
   (chr 'ü', str "ue"), (chr 'ß', str "ss")]

/-- The transformation `fix_column_names` applies to one column name
(lines 27-30): strip, lowercase, the character-map substitutions in
insertion order, then removal of every character outside `[a-zA-Z0-9_]`. -/
def fixName (cm : List (Nat × PyStr)) (s : PyStr) : PyStr :=
  ((cm.foldl (fun acc p => pyReplace p.1 p.2 acc)
      ((pyStrip s).map pyLower)).filter isWordChar)

/-- `fix_column_names` on an index of column names (the `pd.Index` branch;
the `DataFrame` branch reads `df.columns` and proceeds identically, and any
other argument raises `TypeError` before the names are touched). -/
def fix_column_names (cm : List (Nat × PyStr)) (names : List PyStr) :
    List PyStr :=
  names.map (fixName cm)

/-!
## Categorical recoding (`recode_to_categorical`, dba_utils.py lines 35-55)
-/

/-- `pd.Categorical`: the recoded cell values (`none` for a value that is
not among the categories), the category list, and the ordered flag. -/
structure PyCategorical (δ : Type) where
  values : List (Option δ)
  categories : List δ
  ordered : Bool
deriving DecidableEq

/-- `pd.Categorical(vals, categories=cats, ordered=o)`: raises
`ValueError` when the categories are not distinct; otherwise each value
that is not a member of `cats` becomes missing. -/
def pdCategorical {δ : Type} [DecidableEq δ] (vals : List δ) (cats : List δ)
    (ordered : Bool) : Except PyErr (PyCategorical δ) :=
  if cats.Nodup then
    .ok ⟨vals.map (fun v => if v ∈ cats then some v else none), cats, ordered⟩
  else
    .error (.valueError "Categorical categories must be unique")

/-- `Series.replace(recode)` for a dict `recode`: each cell that equals a
key is replaced by the mapped value, every other cell is left unchanged.
Originals and replacements may have different types, hence the sum. -/
def seriesReplace {α β : Type} [DecidableEq α] (recode : List (α × β))
    (col : List α) : List (α ⊕ β) :=
  col.map fun v =>
    match recode.find? (fun p => decide (p.1 = v)) with
    | some p => Sum.inr p.2
    | none => Sum.inl v

/-- Default of the `ordered` parameter of `recode_to_categorical`
(line 35). -/
def recode_ordered_default : Bool := true

/-- `recode_to_categorical(column, recode, ordered)` (lines 52-55): replace
the column values per the dict, and build a categorical whose categories
are `list(recode.values())` in dict insertion order.  The `isinstance`
checks of lines 47-50 are satisfied by construction of the typed
arguments. -/
def recode_to_categorical {α β : Type} [DecidableEq α] [DecidableEq β]
    (column : List α) (recode : List (α × β)) (ordered : Bool) :
    Except PyErr (PyCategorical (α ⊕ β)) :=
  pdCategorical (seriesReplace recode column)
    (recode.map fun p => Sum.inr p.2) ordered

/-!
## Extended description (`better_describe`, dba_utils.py lines 58-84)

Cell values are modelled as exact rationals and the floating-point moment
statistics as exact real numbers; a float `NaN` result is modelled as
`none`.  `nanskew` and `nankurt` follow pandas `nanops.nanskew` /
`nanops.nankurt`: the statistic is `NaN` when the non-missing count is
below 3 (skew) respectively 4 (kurtosis), and it is `0` — not `NaN` — when
the count is large enough but the second central moment (skew) or the
denominator `(n-2)(n-3)·m2²` (kurtosis) is zero.
-/

/-- pandas `Series.skew()` (adjusted Fisher-Pearson G1, skipping missing
values): `none` models `NaN` when fewer than 3 non-missing values; a zero
second central moment yields `0`. -/
noncomputable def nanskew (col : List (Option ℚ)) : Option ℝ :=
  let vs := col.filterMap id
  let n : ℚ := vs.length
  if vs.length < 3 then none
  else
    let mean : ℚ := vs.sum / n
    let m2 : ℚ := (vs.map fun x => (x - mean) ^ 2).sum
    let m3 : ℚ := (vs.map fun x => (x - mean) ^ 3).sum
    if m2 = 0 then some 0
    else
      some (((n : ℝ) * Real.sqrt ((n : ℝ) - 1) / ((n : ℝ) - 2)) *
        ((m3 : ℝ) / ((m2 : ℝ) ^ (1.5 : ℝ))))

/-- pandas `Series.kurtosis()` (sample excess kurtosis G2, skipping missing
values): `none` models `NaN` when fewer than 4 non-missing values; a zero
denominator (in particular a zero second central moment) yields `0`. -/
def nankurt (col : List (Option ℚ)) : Option ℚ :=
  let vs := col.filterMap id
  let n : ℚ := vs.length
  if vs.length < 4 then none
  else
    let mean : ℚ := vs.sum / n
    let m2 : ℚ := (vs.map fun x => (x - mean) ^ 2).sum
    let m4 : ℚ := (vs.map fun x => (x - mean) ^ 4).sum
    let adj := 3 * (n - 1) ^ 2 / ((n - 2) * (n - 3))
    let numer := n * (n + 1) * (n - 1) * m4
    let denom := (n - 2) * (n - 3) * m2 ^ 2
    if denom = 0 then some 0 else some (numer / denom - adj)

/-- The boolean "normal" column of line 81-82:
`(kurt < 1) & (kurt > -1) & (skew < 0.5) & (skew > -0.5)`.  An IEEE
comparison against `NaN` is false, so a missing statistic (`none`) makes
the flag false. -/
noncomputable def normalFlag (skew kurt : Option ℝ) : Bool :=
  match kurt, skew with
  | some k, some s =>
      decide (k < 1) && decide (-1 < k) && decide (s < 1/2) && decide (-(1/2) < s)
  | _, _ => false

/-- One column of the result of `better_describe`: the row count and
summary statistics of `describe()` together with the added `skew`,
`kurtosis` and `normal` rows of lines 79-82.  (The `std` and quartile rows
of `describe()` are omitted from the model.) -/
structure ColStats where
  count : Nat
  mean : Option ℚ
  colMin : Option ℚ
  colMax : Option ℚ
  skew : Option ℝ
  kurt : Option ℚ
  normal : Bool

/-- The statistics `better_describe` computes for a single column. -/
noncomputable def describeCol (col : List (Option ℚ)) : ColStats :=
  let vs := col.filterMap id
  { count := vs.length
    mean := if vs.isEmpty then none else some (vs.sum / vs.length)
    colMin := vs.min?
    colMax := vs.max?
    skew := nanskew col
    kurt := nankurt col
    normal := normalFlag (nanskew col) ((nankurt col).map (Rat.cast : ℚ → ℝ)) }

/-- A Python object passed to `better_describe` as `df` or `columns`:
a `DataFrame` (with numeric columns, the only kind the described statistics
apply to), a `pd.Index` of names, a list of names, or any other object. -/
inductive PyObj where
  | dataFrame (t : Table ℚ)
  | index (names : List String)
  | pylist (names : List String)
  | scalar (tag : String)

/-- `df[names].describe().T` plus the added rows, for a `DataFrame` `t`:
selecting a missing label raises `KeyError`; otherwise the requested
columns are described in the requested order. -/
noncomputable def dfSelect (t : Table ℚ) (names : List String) :
    Except PyErr (List (String × ColStats)) :=
  if names.all (fun n => decide (n ∈ t.cols.map Prod.fst)) then
    .ok (names.map fun n =>
      (n, describeCol (((t.cols.find? fun p => decide (p.1 = n)).map
        Prod.snd).getD [])))
  else
    .error (.keyError "not in index")

/-- `better_describe(df, columns)` (lines 58-84), line by line: the
`columns is None` default is computed **before** the `isinstance` check on
`df`, so a non-DataFrame `df` with `columns` omitted raises
`AttributeError` at `df.select_dtypes` (line 70) rather than the
`TypeError` of line 72.  In this model every `DataFrame` column is numeric,
so `select_dtypes(include=[np.number])` selects all columns. -/
noncomputable def better_describe (df : PyObj) (columns : Option PyObj) :
    Except PyErr (List (String × ColStats)) :=
  -- lines 69-70
  let colsR : Except PyErr PyObj :=
    match columns with
    | none =>
        match df with
        | .dataFrame t => .ok (.pylist (t.cols.map Prod.fst))
        | _ => .error (.attributeError "object has no attribute select_dtypes")
    | some c => .ok c
  match colsR with
  | .error e => .error e
  | .ok cols =>
    -- lines 71-72
    match df with
    | .dataFrame t =>
      -- lines 73-77
      match cols with
      | .pylist ns => dfSelect t ns
      | .index ns => dfSelect t ns
      | _ => .error (.typeError "The columns parameter must be a list or a pandas Index.")
    | _ => .error (.typeError "The df parameter must be a pandas DataFrame.")

/-- Whether a call outcome is a raised `TypeError`. -/
def isTypeErrB {γ : Type} (r : Except PyErr γ) : Bool :=
  match r with
  | .error (.typeError _) => true
  | _ => false

/-- Concrete one-column table whose column mixes a missing entry with a
single repeated non-missing value. -/
def exDf10 : Table ℤ := ⟨[("x", [none, some 1])]⟩

/-!
## Helper lemmas
-/

lemma pyLower_not_upper (c : Nat) : ¬(65 ≤ pyLower c ∧ pyLower c ≤ 90) := by
  unfold pyLower
  split_ifs <;> omega

lemma pyLower_eq_self_of_class {c : Nat}
    (h : (97 ≤ c ∧ c ≤ 122) ∨ (48 ≤ c ∧ c ≤ 57) ∨ c = 95) : pyLower c = c := by
  unfold pyLower
  split_ifs <;> omega

lemma mem_pyReplace {c k : Nat} {r s : PyStr} (h : c ∈ pyReplace k r s) :
    c ∈ s ∨ c ∈ r := by
  simp only [pyReplace, List.mem_flatten, List.mem_map] at h
  obtain ⟨l, ⟨x, hx, rfl⟩, hc⟩ := h
  by_cases hxk : x = k
  · simp only [if_pos hxk] at hc
    exact Or.inr hc
  · simp only [if_neg hxk, List.mem_singleton] at hc
    subst hc
    exact Or.inl hx

lemma mem_foldl_pyReplace (cm : List (Nat × PyStr)) (s : PyStr) (c : Nat)
    (h : c ∈ cm.foldl (fun acc p => pyReplace p.1 p.2 acc) s) :
    c ∈ s ∨ ∃ p ∈ cm, c ∈ p.2 := by
  induction cm generalizing s with
  | nil => exact Or.inl h
  | cons q tl ih =>
    rcases ih (pyReplace q.1 q.2 s) h with h1 | ⟨p, hp, hc⟩
    · rcases mem_pyReplace h1 with hs | hr
      · exact Or.inl hs
      · exact Or.inr ⟨q, List.mem_cons_self q tl, hr⟩
    · exact Or.inr ⟨p, List.mem_cons_of_mem q hp, hc⟩

lemma fixName_mem_class {cm : List (Nat × PyStr)}
    (hcm : ∀ p ∈ cm, ∀ c ∈ p.2, ¬(65 ≤ c ∧ c ≤ 90)) {s : PyStr} {c : Nat}
    (h : c ∈ fixName cm s) :
    (97 ≤ c ∧ c ≤ 122) ∨ (48 ≤ c ∧ c ≤ 57) ∨ c = 95 := by
  simp only [fixName, List.mem_filter] at h
  obtain ⟨hmem, hword⟩ := h
  have hword2 : (97 ≤ c ∧ c ≤ 122) ∨ (65 ≤ c ∧ c ≤ 90) ∨
      (48 ≤ c ∧ c ≤ 57) ∨ c = 95 := by
    simpa [isWordChar] using hword
  have hnotup : ¬(65 ≤ c ∧ c ≤ 90) := by
    rcases mem_foldl_pyReplace _ _ _ hmem with h1 | ⟨p, hp, hc⟩
    · obtain ⟨d, _, rfl⟩ := List.mem_map.mp h1
      exact pyLower_not_upper d
    · exact hcm p hp c hc
  omega

lemma not_pyIsSpace_of_class {c : Nat}
    (h : (97 ≤ c ∧ c ≤ 122) ∨ (48 ≤ c ∧ c ≤ 57) ∨ c = 95) :
    pyIsSpace c = false := by
  simp only [pyIsSpace, List.mem_cons, List.not_mem_nil, or_false,
    decide_eq_false_iff_not]
  omega

lemma dropWhile_eq_self_of_none {p : Nat → Bool} {l : PyStr}
    (h : ∀ c ∈ l, p c = false) : l.dropWhile p = l := by
  cases l with
  | nil => rfl
  | cons a tl =>
    rw [List.dropWhile_cons, h a (List.mem_cons_self a tl)]
    simp

lemma pyStrip_eq_self {l : PyStr} (h : ∀ c ∈ l, pyIsSpace c = false) :
    pyStrip l = l := by
  unfold pyStrip
  rw [dropWhile_eq_self_of_none h,
    dropWhile_eq_self_of_none (fun c hc => h c (List.mem_reverse.mp hc)),
    List.reverse_reverse]

lemma pyReplace_eq_self {k : Nat} (r : PyStr) {s : PyStr} (h : k ∉ s) :
    pyReplace k r s = s := by
  induction s with
  | nil => rfl
  | cons a tl ih =>
    have hak : ¬(a = k) := fun hh => h (hh ▸ List.mem_cons_self a tl)
    have htl : k ∉ tl := fun hh => h (List.mem_cons_of_mem a hh)
    show ((a :: tl).map fun c => if c = k then r else [c]).flatten = a :: tl
    rw [List.map_cons, List.flatten_cons, if_neg hak]
    have htail := ih htl
    simp only [pyReplace] at htail
    rw [htail]
    rfl

lemma filter_isWordChar_eq_self {l : PyStr}
    (h : ∀ c ∈ l, (97 ≤ c ∧ c ≤ 122) ∨ (48 ≤ c ∧ c ≤ 57) ∨ c = 95) :
    l.filter isWordChar = l := by
  refine List.filter_eq_self.mpr fun c hc => ?_
  have := h c hc
  simp only [isWordChar, decide_eq_true_eq]
  omega

lemma fixName_default_fixed {t : PyStr}
    (hclass : ∀ c ∈ t, (97 ≤ c ∧ c ≤ 122) ∨ (48 ≤ c ∧ c ≤ 57) ∨ c = 95) :
    fixName character_map_default t = t := by
  have h1 : pyStrip t = t :=
    pyStrip_eq_self fun c hc => not_pyIsSpace_of_class (hclass c hc)
  have h2 : t.map pyLower = t := by
    rw [show t.map pyLower = t.map id from
      List.map_congr_left fun c hc => pyLower_eq_self_of_class (hclass c hc),
      List.map_id]
  have hk : ∀ k : Nat, k ∈ ([32, 228, 246, 252, 223] : List Nat) → k ∉ t := by
    intro k hk hmem
    rcases hclass k hmem with h | h | h <;>
      simp only [List.mem_cons, List.not_mem_nil, or_false] at hk <;> omega
  have h3 : character_map_default.foldl
      (fun acc p => pyReplace p.1 p.2 acc) t = t := by
    show pyReplace 223 (str "ss") (pyReplace 252 (str "ue")
      (pyReplace 246 (str "oe") (pyReplace 228 (str "ae")
        (pyReplace 32 (str "_") t)))) = t
    rw [pyReplace_eq_self _ (hk 32 (by simp)),
      pyReplace_eq_self _ (hk 228 (by simp)),
      pyReplace_eq_self _ (hk 246 (by simp)),
      pyReplace_eq_self _ (hk 252 (by simp)),
      pyReplace_eq_self _ (hk 223 (by simp))]
  have h4 : t.filter isWordChar = t := filter_isWordChar_eq_self hclass
  show (character_map_default.foldl (fun acc p => pyReplace p.1 p.2 acc)
    ((pyStrip t).map pyLower)).filter isWordChar = t
  rw [h1, h2, h3, h4]

lemma fixName_default_idem (s : PyStr) :
    fixName character_map_default (fixName character_map_default s) =
      fixName character_map_default s :=
  fixName_default_fixed fun c hc => fixName_mem_class (by decide) hc

/-!
## Claim theorems
-/

/-- C6: for every sequence of names, every name returned by
`fix_column_names` with the default character map consists only of
lowercase ASCII letters (`a`-`z`), digits (`0`-`9`) and underscores. -/
theorem fix_column_names_charset (names : List PyStr) (out : PyStr) (c : Nat)
    (hout : out ∈ fix_column_names character_map_default names)
    (hc : c ∈ out) :
    (97 ≤ c ∧ c ≤ 122) ∨ (48 ≤ c ∧ c ≤ 57) ∨ c = 95 := by
  obtain ⟨s, _, rfl⟩ := List.mem_map.mp hout
  exact fixName_mem_class (by decide) hc

/-- Witness for C6 at the concrete input `["A"]`. -/
theorem fix_column_names_charset_witness :
    (str "a" ∈ fix_column_names character_map_default [str "A"]) ∧
      (97 ∈ str "a") ∧
      ((97 ≤ 97 ∧ 97 ≤ 122) ∨ (48 ≤ 97 ∧ 97 ≤ 57) ∨ 97 = 95) :=
  ⟨by decide, by decide,
    fix_column_names_charset [str "A"] (str "a") 97 (by decide) (by decide)⟩

/-- C7: `fix_column_names` with the default character map is idempotent:
applying it twice to any name sequence equals applying it once (so every
already-normalized sequence is a fixed point). -/
theorem fix_column_names_idempotent (names : List PyStr) :
    fix_column_names character_map_default
        (fix_column_names character_map_default names) =
      fix_column_names character_map_default names := by
  simp only [fix_column_names, List.map_map, Function.comp_def]
  exact List.map_congr_left fun s _ => fixName_default_idem s

/-- C8: `fix_column_names` on `["  Straße ", "Wert (EUR)"]` with the
default character map returns `["strasse", "wert_eur"]`. -/
theorem fix_column_names_example :
    fix_column_names character_map_default
        [str "  Straße ", str "Wert (EUR)"] =
      [str "strasse", str "wert_eur"] := by decide

/-- C1: calling `drop_no_information_columns` with a non-empty `keep` list
fails: line 122 evaluates `delete - set(keep)` where `delete` is a Python
list, and subtracting a set from a list raises `TypeError`, so the constant
column "b" is not retained — the call never returns a table. -/
theorem drop_keep_raises :
    drop_no_information_columns exDf (some ["b"]) none =
      .error (.typeError "unsupported operand type(s) for -: list and set") :=
  rfl

/-- C9: recoding the column `[1, 1, 2]` with the ordered mapping
`{1: "low", 2: "high"}` yields the categorical values
`["low", "low", "high"]`, category list `["low", "high"]` in
mapping-insertion order, and the ordered flag true by default. -/
theorem recode_to_categorical_example :
    recode_to_categorical [(1 : ℤ), 1, 2] [((1 : ℤ), "low"), (2, "high")]
        recode_ordered_default =
      .ok ⟨[some (Sum.inr "low"), some (Sum.inr "low"), some (Sum.inr "high")],
           [Sum.inr "low", Sum.inr "high"], true⟩ :=
  rfl

lemma snd_eq_of_fst_nodup {γ : Type} {l : List (String × γ)}
    (h : (l.map Prod.fst).Nodup) {n : String} {a b : γ}
    (ha : (n, a) ∈ l) (hb : (n, b) ∈ l) : a = b := by
  induction l with
  | nil => cases ha
  | cons q tl ih =>
    rw [List.map_cons, List.nodup_cons] at h
    rcases List.mem_cons.mp ha with ha1 | ha2 <;>
      rcases List.mem_cons.mp hb with hb1 | hb2
    · exact (Prod.ext_iff.mp (ha1.trans hb1.symm)).2
    · exfalso
      apply h.1
      have hq : q.1 = n := by rw [← ha1]
      rw [hq]
      exact List.mem_map_of_mem Prod.fst hb2
    · exfalso
      apply h.1
      have hq : q.1 = n := by rw [← hb1]
      rw [hq]
      exact List.mem_map_of_mem Prod.fst ha2
    · exact ih h.2 ha2 hb2

lemma mem_filter_map_fst {γ : Type} {l : List (String × γ)}
    {q : String × γ → Bool} {n : String} :
    n ∈ (l.filter q).map Prod.fst ↔ ∃ col, (n, col) ∈ l ∧ q (n, col) = true := by
  simp only [List.mem_map, List.mem_filter]
  constructor
  · rintro ⟨⟨m, col⟩, ⟨hmem, hq⟩, rfl⟩
    exact ⟨col, hmem, hq⟩
  · rintro ⟨col, hmem, hq⟩
    exact ⟨(n, col), ⟨hmem, hq⟩, rfl⟩

lemma mem_informative0 {α : Type} [DecidableEq α] {df : Table α} {n : String} :
    n ∈ (informative_columns df).1 ↔
      ∃ col, (n, col) ∈ df.cols ∧ nunique col = 0 := by
  show n ∈ (df.cols.filter fun p => decide (nunique p.2 = 0)).map Prod.fst ↔ _
  rw [mem_filter_map_fst]
  simp only [decide_eq_true_eq]

lemma mem_informative1 {α : Type} [DecidableEq α] {df : Table α} {n : String} :
    n ∈ (informative_columns df).2.1 ↔
      ∃ col, (n, col) ∈ df.cols ∧ nunique col = 1 := by
  show n ∈ (df.cols.filter fun p => decide (nunique p.2 = 1)).map Prod.fst ↔ _
  rw [mem_filter_map_fst]
  simp only [decide_eq_true_eq]

lemma mem_informative2 {α : Type} [DecidableEq α] {df : Table α} {n : String} :
    n ∈ (informative_columns df).2.2 ↔
      ∃ col, (n, col) ∈ df.cols ∧ 1 < nunique col := by
  show n ∈ (df.cols.filter fun p => decide (1 < nunique p.2)).map Prod.fst ↔ _
  rw [mem_filter_map_fst]
  simp only [decide_eq_true_eq]

lemma informative_perm {α : Type} [DecidableEq α] (df : Table α) :
    ((informative_columns df).1 ++ ((informative_columns df).2.1 ++
        (informative_columns df).2.2)).Perm (df.cols.map Prod.fst) := by
  have hsplit0 := List.filter_append_perm
    (fun p : String × List (Option α) => decide (nunique p.2 = 0)) df.cols
  have e1 : (df.cols.filter fun p => !decide (nunique p.2 = 0)).filter
      (fun p => decide (nunique p.2 = 1)) =
      df.cols.filter fun p => decide (nunique p.2 = 1) := by
    rw [List.filter_filter]
    refine List.filter_congr fun p _ => ?_
    by_cases h1 : nunique p.2 = 1 <;> by_cases h0 : nunique p.2 = 0 <;>
      simp [h1, h0]
  have e2 : (df.cols.filter fun p => !decide (nunique p.2 = 0)).filter
      (fun p => !decide (nunique p.2 = 1)) =
      df.cols.filter fun p => decide (1 < nunique p.2) := by
    rw [List.filter_filter]
    refine List.filter_congr fun p _ => ?_
    by_cases h1 : nunique p.2 = 1 <;> by_cases h0 : nunique p.2 = 0 <;>
      by_cases h2 : 1 < nunique p.2 <;> simp [h1, h0, h2] <;> omega
  have hbc : ((df.cols.filter fun p => decide (nunique p.2 = 1)) ++
      (df.cols.filter fun p => decide (1 < nunique p.2))).Perm
      (df.cols.filter fun p => !decide (nunique p.2 = 0)) := by
    rw [← e1, ← e2]
    exact List.filter_append_perm _ _
  have habc := (hbc.append_left
    (df.cols.filter fun p => decide (nunique p.2 = 0))).trans hsplit0
  have hmap := habc.map Prod.fst
  simpa only [informative_columns, List.map_append] using hmap

lemma nunique_eq_zero_iff {α : Type} [DecidableEq α] {col : List (Option α)} :
    nunique col = 0 ↔ ∀ x ∈ col, x = none := by
  unfold nunique
  rw [List.length_eq_zero, List.dedup_eq_nil, List.filterMap_eq_nil_iff]
  simp only [id_eq]

lemma dedup_eq_singleton_of_all {α : Type} [DecidableEq α] {l : List α}
    {a : α} (hne : l ≠ []) (hall : ∀ b ∈ l, b = a) : l.dedup = [a] := by
  induction l with
  | nil => exact absurd rfl hne
  | cons x tl ih =>
    have hx : x = a := hall x (List.mem_cons_self x tl)
    subst hx
    by_cases htl : tl = []
    · subst htl
      simp
    · have h1 : tl.dedup = [x] := ih htl fun b hb =>
        hall b (List.mem_cons_of_mem x hb)
      have hmem : x ∈ tl := List.mem_dedup.mp (by simp [h1])
      rw [List.dedup_cons_of_mem hmem, h1]

lemma nunique_eq_one_of {α : Type} [DecidableEq α] {col : List (Option α)}
    {a : α} (hmem : some a ∈ col) (hall : ∀ b, some b ∈ col → b = a) :
    nunique col = 1 := by
  unfold nunique
  have h1 : a ∈ col.filterMap id := List.mem_filterMap.mpr ⟨some a, hmem, rfl⟩
  have hne : col.filterMap id ≠ [] := fun h => by rw [h] at h1; cases h1
  have hall2 : ∀ b ∈ col.filterMap id, b = a := by
    intro b hb
    obtain ⟨x, hx, hid⟩ := List.mem_filterMap.mp hb
    have hxb : x = some b := hid
    subst hxb
    exact hall b hx
  rw [dedup_eq_singleton_of_all hne hall2]
  rfl

/-- C4: for every table (with distinct column names), the three lists of
`informative_columns` are pairwise disjoint, together a permutation of the
column names classified by distinct-value count (the membership
characterizations), and each preserves the original column order
(sublists); on the concrete table with one all-missing, one constant and
one varying column the lists are `["a"], ["b"], ["c"]`. -/
theorem informative_columns_partition :
    (∀ (α : Type) [DecidableEq α] (df : Table α),
      (df.cols.map Prod.fst).Nodup →
      ((informative_columns df).1 ++ (informative_columns df).2.1 ++
          (informative_columns df).2.2).Perm (df.cols.map Prod.fst) ∧
      (informative_columns df).1.Disjoint (informative_columns df).2.1 ∧
      (informative_columns df).1.Disjoint (informative_columns df).2.2 ∧
      (informative_columns df).2.1.Disjoint (informative_columns df).2.2 ∧
      (informative_columns df).1.Sublist (df.cols.map Prod.fst) ∧
      (informative_columns df).2.1.Sublist (df.cols.map Prod.fst) ∧
      (informative_columns df).2.2.Sublist (df.cols.map Prod.fst) ∧
      (∀ n, n ∈ (informative_columns df).1 ↔
          ∃ col, (n, col) ∈ df.cols ∧ nunique col = 0) ∧
      (∀ n, n ∈ (informative_columns df).2.1 ↔
          ∃ col, (n, col) ∈ df.cols ∧ nunique col = 1) ∧
      (∀ n, n ∈ (informative_columns df).2.2 ↔
          ∃ col, (n, col) ∈ df.cols ∧ 1 < nunique col)) ∧
    informative_columns exDf = (["a"], ["b"], ["c"]) := by
  constructor
  · intro α _ df hnodup
    refine ⟨?_, ?_, ?_, ?_, ?_, ?_, ?_, ?_, ?_, ?_⟩
    · rw [List.append_assoc]
      exact informative_perm df
    · intro n h0 h1
      obtain ⟨c0, hc0, hn0⟩ := mem_informative0.mp h0
      obtain ⟨c1, hc1, hn1⟩ := mem_informative1.mp h1
      have he := snd_eq_of_fst_nodup hnodup hc0 hc1
      subst he
      omega
    · intro n h0 h2
      obtain ⟨c0, hc0, hn0⟩ := mem_informative0.mp h0
      obtain ⟨c2, hc2, hn2⟩ := mem_informative2.mp h2
      have he := snd_eq_of_fst_nodup hnodup hc0 hc2
      subst he
      omega
    · intro n h1 h2
      obtain ⟨c1, hc1, hn1⟩ := mem_informative1.mp h1
      obtain ⟨c2, hc2, hn2⟩ := mem_informative2.mp h2
      have he := snd_eq_of_fst_nodup hnodup hc1 hc2
      subst he
      omega
    · exact List.Sublist.map Prod.fst (List.filter_sublist df.cols)
    · exact List.Sublist.map Prod.fst (List.filter_sublist df.cols)
    · exact List.Sublist.map Prod.fst (List.filter_sublist df.cols)
    · exact fun n => mem_informative0
    · exact fun n => mem_informative1
    · exact fun n => mem_informative2
  · decide

/-- Witness for C4 at the concrete three-column table. -/
theorem informative_columns_partition_witness :
    ((informative_columns exDf).1 ++ (informative_columns exDf).2.1 ++
        (informative_columns exDf).2.2).Perm (exDf.cols.map Prod.fst) :=
  (informative_columns_partition.1 ℤ exDf (by decide)).1

/-- C5: on any table with distinct column names,
`drop_no_information_columns` with no keep/drop returns the table holding
exactly the columns with more than one distinct value, in original order;
on the concrete table only the varying column "c" remains. -/
theorem drop_no_information_default :
    (∀ (α : Type) [DecidableEq α] (df : Table α),
      (df.cols.map Prod.fst).Nodup →
      drop_no_information_columns df none none =
        .ok ⟨df.cols.filter fun p => decide (1 < nunique p.2)⟩) ∧
    drop_no_information_columns exDf none none =
      .ok ⟨[("c", [some 1, some 2])]⟩ := by
  constructor
  · intro α _ df hnodup
    show pdDrop df
      ((informative_columns df).1 ++ (informative_columns df).2.1) = _
    unfold pdDrop
    have hall : (((informative_columns df).1 ++
        (informative_columns df).2.1).all
        fun l => decide (l ∈ df.cols.map Prod.fst)) = true := by
      rw [List.all_eq_true]
      intro x hx
      rw [decide_eq_true_eq]
      rcases List.mem_append.mp hx with h | h
      · obtain ⟨col, hcol, _⟩ := mem_informative0.mp h
        exact List.mem_map_of_mem Prod.fst hcol
      · obtain ⟨col, hcol, _⟩ := mem_informative1.mp h
        exact List.mem_map_of_mem Prod.fst hcol
    rw [if_pos hall]
    refine congrArg (fun l => Except.ok (Table.mk l)) ?_
    refine List.filter_congr fun p hp => ?_
    have hiff : p.1 ∈ (informative_columns df).1 ++
        (informative_columns df).2.1 ↔
        nunique p.2 = 0 ∨ nunique p.2 = 1 := by
      rw [List.mem_append, mem_informative0, mem_informative1]
      constructor
      · rintro (⟨col, hcol, hnu⟩ | ⟨col, hcol, hnu⟩)
        · have he : col = p.2 := snd_eq_of_fst_nodup hnodup hcol hp
          subst he
          exact Or.inl hnu
        · have he : col = p.2 := snd_eq_of_fst_nodup hnodup hcol hp
          subst he
          exact Or.inr hnu
      · rintro (h | h)
        · exact Or.inl ⟨p.2, hp, h⟩
        · exact Or.inr ⟨p.2, hp, h⟩
    by_cases hmem : p.1 ∈ (informative_columns df).1 ++
        (informative_columns df).2.1
    · have h01 := hiff.mp hmem
      have hnot : ¬(1 < nunique p.2) := by omega
      simp [hmem, hnot]
    · have h01 : ¬(nunique p.2 = 0 ∨ nunique p.2 = 1) :=
        fun h => hmem (hiff.mpr h)
      have hgt : 1 < nunique p.2 := by omega
      simp [hmem, hgt]
  · rfl

/-- Witness for C5 at the concrete three-column table. -/
theorem drop_no_information_default_witness :
    drop_no_information_columns exDf none none =
      .ok ⟨exDf.cols.filter fun p => decide (1 < nunique p.2)⟩ :=
  drop_no_information_default.1 ℤ exDf (by decide)

/-- C10: distinct values are counted ignoring missing entries: a column is
in the "no information" list exactly when all its entries are missing, and
a column containing a missing entry together with exactly one distinct
non-missing value is classified "constant", not "informative". -/
theorem nunique_ignores_missing :
    ∀ (α : Type) [DecidableEq α] (df : Table α) (n : String)
      (col : List (Option α)), (df.cols.map Prod.fst).Nodup →
      (n, col) ∈ df.cols →
      ((n ∈ (informative_columns df).1 ↔ ∀ x ∈ col, x = none) ∧
       ((none ∈ col ∧ ∃ a, some a ∈ col ∧ ∀ b, some b ∈ col → b = a) →
         n ∈ (informative_columns df).2.1 ∧
           n ∉ (informative_columns df).2.2)) := by
  intro α _ df n col hnodup hmem
  constructor
  · rw [mem_informative0]
    constructor
    · rintro ⟨col2, hmem2, hnu⟩
      have he : col2 = col := snd_eq_of_fst_nodup hnodup hmem2 hmem
      subst he
      exact nunique_eq_zero_iff.mp hnu
    · intro hall
      exact ⟨col, hmem, nunique_eq_zero_iff.mpr hall⟩
  · rintro ⟨-, a, ha, hall⟩
    have h1 : nunique col = 1 := nunique_eq_one_of ha hall
    constructor
    · exact mem_informative1.mpr ⟨col, hmem, h1⟩
    · intro h2
      obtain ⟨col2, hmem2, hnu2⟩ := mem_informative2.mp h2
      have he : col2 = col := snd_eq_of_fst_nodup hnodup hmem2 hmem
      subst he
      omega

/-- Witness for C10 at a one-column table mixing a missing entry with a
repeated non-missing value. -/
theorem nunique_ignores_missing_witness :
    "x" ∈ (informative_columns exDf10).2.1 ∧
      "x" ∉ (informative_columns exDf10).2.2 :=
  (nunique_ignores_missing ℤ exDf10 "x" [none, some 1] (by decide)
      (by decide)).2
    ⟨by decide, 1, by decide, fun b hb => by simpa using hb⟩

lemma describeCol_skew (col : List (Option ℚ)) :
    (describeCol col).skew = nanskew col := rfl

lemma describeCol_kurt (col : List (Option ℚ)) :
    (describeCol col).kurt = nankurt col := rfl

lemma describeCol_normal (col : List (Option ℚ)) :
    (describeCol col).normal =
      normalFlag (nanskew col) ((nankurt col).map (Rat.cast : ℚ → ℝ)) := rfl

lemma normalFlag_iff (s k : Option ℝ) :
    normalFlag s k = true ↔ ∃ sv kv, s = some sv ∧ k = some kv ∧
      -1 < kv ∧ kv < 1 ∧ -(1/2) < sv ∧ sv < 1/2 := by
  cases s with
  | none => cases k <;> simp [normalFlag]
  | some sv =>
    cases k with
    | none => simp [normalFlag]
    | some kv =>
      simp only [normalFlag, Bool.and_eq_true, decide_eq_true_eq,
        Option.some.injEq]
      constructor
      · rintro ⟨⟨⟨h1, h2⟩, h3⟩, h4⟩
        exact ⟨sv, kv, rfl, rfl, h2, h1, h4, h3⟩
      · rintro ⟨sv2, kv2, hs, hk, h1, h2, h3, h4⟩
        subst hs
        subst hk
        exact ⟨⟨⟨h2, h1⟩, h4⟩, h3⟩

lemma dfSelect_mem {t : Table ℚ} {ns : List String}
    {out : List (String × ColStats)} (h : dfSelect t ns = .ok out)
    {n : String} {st : ColStats} (hmem : (n, st) ∈ out) :
    ∃ col, st = describeCol col := by
  unfold dfSelect at h
  by_cases hc : (ns.all fun m => decide (m ∈ t.cols.map Prod.fst)) = true
  · rw [if_pos hc] at h
    injection h with h2
    subst h2
    obtain ⟨m, _, heq⟩ := List.mem_map.mp hmem
    exact ⟨_, (Prod.ext_iff.mp heq).2.symm⟩
  · rw [if_neg hc] at h
    cases h

lemma nanskew_const4 :
    nanskew [some 1, some 1, some 1, some 1] = some 0 := by
  have hfm : List.filterMap id [some (1 : ℚ), some 1, some 1, some 1] =
      [1, 1, 1, 1] := by decide
  simp only [nanskew, hfm]
  norm_num

lemma nankurt_const4 :
    nankurt [some 1, some 1, some 1, some 1] = some 0 := by
  have hfm : List.filterMap id [some (1 : ℚ), some 1, some 1, some 1] =
      [1, 1, 1, 1] := by decide
  simp only [nankurt, hfm]
  norm_num

lemma nanskew_single : nanskew [some 1] = none := by
  have hfm : List.filterMap id [some (1 : ℚ)] = [1] := by decide
  simp only [nanskew, hfm]
  norm_num

lemma describeCol_const4_normal :
    (describeCol [some 1, some 1, some 1, some 1]).normal = true := by
  rw [describeCol_normal, nanskew_const4, nankurt_const4]
  have hcast : ((some (0 : ℚ)).map (Rat.cast : ℚ → ℝ)) = some (0 : ℝ) := by
    norm_num
  rw [hcast]
  rw [normalFlag_iff]
  exact ⟨0, 0, rfl, rfl, by norm_num, by norm_num, by norm_num, by norm_num⟩

/-- C2 (counterexample): on the zero-variance column `[1,1,1,1]` pandas
yields skew `0` and kurtosis `0` — not `NaN` — because `nanskew`/`nankurt`
map a zero second central moment (at sufficient count) to `0`; hence the
"approximately normal" flag is true there, not false. -/
theorem constant_column_skew_not_nan :
    (describeCol [some 1, some 1, some 1, some 1]).skew = some 0 ∧
    (describeCol [some 1, some 1, some 1, some 1]).kurt = some 0 ∧
    (describeCol [some 1, some 1, some 1, some 1]).normal = true :=
  ⟨(describeCol_skew _).trans nanskew_const4,
   (describeCol_kurt _).trans nankurt_const4,
   describeCol_const4_normal⟩

/-- C2 (amended): every column statistic of `better_describe` is a
`describeCol`; the "approximately normal" flag is true exactly when the
kurtosis is strictly between -1 and 1 and the skewness strictly between
-0.5 and 0.5 (open intervals), and it is false whenever skew or kurtosis is
`NaN` (fewer than 3 resp. 4 non-missing values); but a zero-variance column
with enough values, such as `[1,1,1,1]`, has skew `0` and kurtosis `0`
(not `NaN`) and its flag is true. -/
theorem normal_flag_spec :
    (∀ (df : PyObj) (columns : Option PyObj)
        (out : List (String × ColStats)) (n : String) (st : ColStats),
      better_describe df columns = .ok out → (n, st) ∈ out →
      ∃ col, st = describeCol col) ∧
    (∀ col : List (Option ℚ), (describeCol col).normal = true ↔
      ∃ (s : ℝ) (k : ℚ), (describeCol col).skew = some s ∧
        (describeCol col).kurt = some k ∧
        -1 < k ∧ k < 1 ∧ -(1/2) < s ∧ s < 1/2) ∧
    (∀ col : List (Option ℚ),
      (describeCol col).skew = none ∨ (describeCol col).kurt = none →
      (describeCol col).normal = false) ∧
    (describeCol [some 1, some 1, some 1, some 1]).skew = some 0 ∧
    (describeCol [some 1, some 1, some 1, some 1]).kurt = some 0 ∧
    (describeCol [some 1, some 1, some 1, some 1]).normal = true := by
  refine ⟨?_, ?_, ?_, (describeCol_skew _).trans nanskew_const4,
    (describeCol_kurt _).trans nankurt_const4, describeCol_const4_normal⟩
  · intro df columns out n st h hmem
    cases columns with
    | none =>
      cases df with
      | dataFrame t =>
        simp only [better_describe] at h
        exact dfSelect_mem h hmem
      | index ns => simp [better_describe] at h
      | pylist ns => simp [better_describe] at h
      | scalar s => simp [better_describe] at h
    | some c =>
      cases df with
      | dataFrame t =>
        cases c with
        | pylist ns =>
          simp only [better_describe] at h
          exact dfSelect_mem h hmem
        | index ns =>
          simp only [better_describe] at h
          exact dfSelect_mem h hmem
        | dataFrame t2 => simp [better_describe] at h
        | scalar s => simp [better_describe] at h
      | index ns => simp [better_describe] at h
      | pylist ns => simp [better_describe] at h
      | scalar s => simp [better_describe] at h
  · intro col
    rw [describeCol_normal, describeCol_skew, describeCol_kurt,
      normalFlag_iff]
    constructor
    · rintro ⟨sv, kv, hs, hk, h1, h2, h3, h4⟩
      obtain ⟨k2, hk2, hcast⟩ := Option.map_eq_some'.mp hk
      refine ⟨sv, k2, hs, hk2, ?_, ?_, h3, h4⟩
      · rw [← hcast] at h1
        exact_mod_cast h1
      · rw [← hcast] at h2
        exact_mod_cast h2
    · rintro ⟨sv, k, hs, hk, h1, h2, h3, h4⟩
      refine ⟨sv, (k : ℝ), hs, ?_, ?_, ?_, h3, h4⟩
      · rw [hk]
        rfl
      · exact_mod_cast h1
      · exact_mod_cast h2
  · intro col h
    rw [describeCol_skew, describeCol_kurt] at h
    rw [describeCol_normal]
    rcases h with h | h
    · rw [h]
      cases hk : (nankurt col).map (Rat.cast : ℚ → ℝ) <;> rfl
    · rw [h]
      cases hs : nanskew col <;> rfl

/-- Witness for C2 at a one-value column, whose skew is `NaN`. -/
theorem normal_flag_spec_witness :
    (describeCol [some (1 : ℚ)]).normal = false :=
  normal_flag_spec.2.2.1 [some 1]
    (Or.inl ((describeCol_skew _).trans nanskew_single))

/-- C3 (counterexample): `better_describe` on a non-DataFrame with the
column list omitted raises `AttributeError` (line 70 accesses
`df.select_dtypes` before the `isinstance` check of line 71), not a
`TypeError`. -/
theorem omitted_columns_not_type_error :
    better_describe (.scalar "0") none =
      .error (.attributeError "object has no attribute select_dtypes") ∧
    isTypeErrB (better_describe (.scalar "0") none) = false :=
  ⟨rfl, rfl⟩

/-- C3 (amended): `better_describe` raises `TypeError` for a non-DataFrame
table argument whenever the column list is supplied, and for a DataFrame
with a column argument that is neither a list nor an Index; but when the
column list is omitted a non-DataFrame raises `AttributeError` instead. -/
theorem better_describe_type_checks :
    (∀ (o c : PyObj), (∀ t, o ≠ .dataFrame t) →
      better_describe o (some c) =
        .error (.typeError "The df parameter must be a pandas DataFrame.")) ∧
    (∀ (t : Table ℚ) (c : PyObj), (∀ ns, c ≠ .pylist ns) →
        (∀ ns, c ≠ .index ns) →
      better_describe (.dataFrame t) (some c) =
        .error (.typeError
          "The columns parameter must be a list or a pandas Index.")) ∧
    (∀ o : PyObj, (∀ t, o ≠ .dataFrame t) →
      better_describe o none =
        .error (.attributeError "object has no attribute select_dtypes")) := by
  refine ⟨?_, ?_, ?_⟩
  · intro o c h
    cases o with
    | dataFrame t => exact absurd rfl (h t)
    | index ns => rfl
    | pylist ns => rfl
    | scalar s => rfl
  · intro t c h1 h2
    cases c with
    | pylist ns => exact absurd rfl (h1 ns)
    | index ns => exact absurd rfl (h2 ns)
    | dataFrame t2 => rfl
    | scalar s => rfl

  · intro o h
    cases o with
    | dataFrame t => exact absurd rfl (h t)
    | index ns => rfl
    | pylist ns => rfl
    | scalar s => rfl

/-- Witness for C3 at a scalar table argument and an empty column list. -/
theorem better_describe_type_checks_witness :
    better_describe (.scalar "0") (some (.pylist [])) =
      .error (.typeError "The df parameter must be a pandas DataFrame.") :=
  better_describe_type_checks.1 (.scalar "0") (.pylist [])
    (fun _ h => nomatch h)
